import Mathlib

/-!
Verification development for the `thunder` gateway frontend
(`src/serve/frontend.rs`): a shallow embedding of the auth middleware,
the login handler, the per-header CGI environment mapping, the
mount-prefix gate and the CGI response-stream parser, together with
theorems settling the specification claims about them.

Strings are modelled as Lean `String` / `List Char`; all concrete inputs
considered are ASCII, for which Rust's byte-indexed slicing and
`char`-based splitting coincide with the `List Char` operations used here.
-/

namespace Thunder

/-! ### Generic character/list helpers mirroring the Rust std operations -/

/-- Whitespace test covering the ASCII whitespace characters that
`str::trim` removes (the concrete inputs considered are ASCII). -/
def isWsp (c : Char) : Bool :=
  c == ' ' || c == '\t' || c == '\r' || c == '\n'

/-- Remove leading and trailing whitespace, as Rust `str::trim`. -/
def trimChars (l : List Char) : List Char :=
  ((l.dropWhile isWsp).reverse.dropWhile isWsp).reverse

/-- Rust `str::starts_with`. -/
def listStartsWith : List Char → List Char → Bool
  | [], _ => true
  | _ :: _, [] => false
  | p :: ps, c :: cs => p == c && listStartsWith ps cs

/-- Rust `str::contains` (substring occurrence test). -/
def listContains (p l : List Char) : Bool :=
  (List.range (l.length + 1)).any fun i => listStartsWith p (l.drop i)

/-- Rust `str::split(sep)`: splits on every occurrence of `sep`,
keeping empty segments (`"" → [""]`, `";" → ["", ""]`). -/
def splitChar (sep : Char) : List Char → List (List Char)
  | [] => [[]]
  | c :: cs =>
    if c == sep then [] :: splitChar sep cs
    else
      match splitChar sep cs with
      | [] => [[c]]
      | l :: ls => (c :: l) :: ls

/-- Rust `str::split_once(sep)`: `some (before, after)` split at the first
occurrence of `sep`, `none` when `sep` does not occur. -/
def splitOnce (sep : Char) (l : List Char) : Option (List Char × List Char) :=
  if sep ∈ l then some (l.takeWhile (· ≠ sep), (l.dropWhile (· ≠ sep)).drop 1) else none

/-- Everything after the first occurrence of `sep` (empty if absent). -/
def afterFirst (sep : Char) (l : List Char) : List Char :=
  (l.dropWhile (· ≠ sep)).drop 1

/-! ### Auth gate (`auth_middleware`, frontend.rs:297-328)

`CHECK_AUTH.get()` is modelled as `Option (Option String)`: `none` when the
cell is unset, `some none` when set with no password configured,
`some (some p)` when set with password `p`.  Token verification
(`token::verifier`, an external collaborator) is an abstract predicate. -/

/-- The cookie name constant `ACCESS_COOKIE`. -/
def ACCESS_COOKIE : String := "access_token"

/-- Candidate tokens the middleware extracts from a `Cookie` header value
and submits to `token::verifier`, in scan order (frontend.rs:309-323):
split on `;`, drop empty segments, trim, keep segments *starting with*
`access_token`, and for those splitting on `=` into exactly two parts the
second part is the candidate. -/
def candidates (h : String) : List String :=
  ((((splitChar ';' h.toList).filter (fun c => !c.isEmpty)).filterMap (fun c =>
    let c := trimChars c
    if listStartsWith ACCESS_COOKIE.toList c then
      let tok := splitChar '=' c
      if tok.length == 2 then tok.get? 1 else none
    else none)).map fun l => String.mk l)

/-- Outcome of the auth middleware: forward to the pipeline or redirect to
`/login`.  The middleware has no error outcome (`Result<Response, Redirect>`
with the `Err` arm always `Redirect::to("/login")`). -/
inductive Decision where
  | allow
  | redirectLogin
deriving DecidableEq, Repr

/-- The decision of `auth_middleware` (frontend.rs:297-328): allow when
`CHECK_AUTH` is set with no password; otherwise allow iff some candidate
token extracted from the `Cookie` header verifies, else redirect. -/
def authMiddleware (checkAuth : Option (Option String)) (cookieHeader : Option String)
    (verify : String → Bool) : Decision :=
  match checkAuth with
  | some none => .allow
  | _ =>
    match cookieHeader with
    | none => .redirectLogin
    | some h => if (candidates h).any verify then .allow else .redirectLogin

/-! ### Login (`authentication` / `post_login`, frontend.rs:134-164) -/

/-- `authentication` (frontend.rs:134-139): true unless a password is
configured and the supplied one differs. -/
def authentication (checkAuth : Option (Option String)) (pw : String) : Bool :=
  match checkAuth with
  | some (some p) => pw == p
  | _ => true

/-- Response of the login POST handler: either a `See Other` response with
a `Location` and a `Set-Cookie` header, or a redirect to `/login`. -/
inductive LoginResponse where
  | success (status : Nat) (location : String) (setCookie : String)
  | redirectLogin
deriving DecidableEq, Repr

/-- `post_login` (frontend.rs:147-164).  `genTok` models the outcome of
`token::generate_token()` (an external collaborator): `some t` on success.
`home` is `constant::SYNOPKG_WEB_UI_HOME` and `exp` the expiry `EXP`,
both defined outside `src/serve/frontend.rs`, hence parameters. -/
def postLogin (checkAuth : Option (Option String)) (genTok : Option String)
    (home : String) (exp : Nat) (pw : String) : LoginResponse :=
  if authentication checkAuth pw then
    match genTok with
    | some tok =>
      .success 303 home (ACCESS_COOKIE ++ "=" ++ tok ++ "; Max-Age=" ++ toString exp ++ "; Path=/; HttpOnly")
    | none => .redirectLogin
  else .redirectLogin

/-! ### Mount gate (`get_pan_thunder_com`, frontend.rs:176-178) -/

/-- A request URI in origin form, as `axum::http::Uri` renders it. -/
structure Uri where
  path : String
  query : Option String
deriving DecidableEq, Repr

/-- `Uri::to_string()` for an origin-form URI: path, then `?query` if any. -/
def Uri.render (u : Uri) : String :=
  u.path ++ match u.query with | some q => "?" ++ q | none => ""

/-- First step of the gateway handler. -/
inductive GatewayStep where
  | redirectHome
  | forward
deriving DecidableEq, Repr

/-- The mount gate (frontend.rs:176-178): redirect to `home`
(`constant::SYNOPKG_WEB_UI_HOME`) unless `req.uri.to_string()` *contains*
`home` as a substring, in which case the request proceeds to the CGI
pipeline. -/
def mountGate (home : String) (u : Uri) : GatewayStep :=
  if listContains home.toList u.render.toList then .forward else .redirectHome

/-- The mount path of the application, as fixed by the repository
(route comment at frontend.rs:171 and the `/webman/3rdparty/...` routes). -/
def WEB_UI_HOME : String := "/webman/3rdparty/pan-thunder-com/index.cgi/"

/-! ### Per-header environment mapping (frontend.rs:218-227) -/

/-- The environment variable contributed by one request header
(frontend.rs:218-227): the name is lowercased (`to_ascii_lowercase`),
compared against the literal `"PROXY"`, and when the value is non-empty
`HTTP_<lowercased-name>` is emitted. -/
def envOfHeader (k v : String) : Option (String × String) :=
  let kl := k.toList.map Char.toLower
  if kl == ("PROXY").toList then none
  else if v.toList.isEmpty then none
  else some (String.mk (("HTTP_").toList ++ kl), v)

/-! ### CGI response parsing (frontend.rs:250-283)

The handler reads `output.stdout` line by line (`BufRead::lines`), treats
each line before the first empty line as a CGI header line (skipping lines
beginning with `"getEnvs "`), and builds an `http::Response` from them; the
bytes after the empty line are the body.  The model below reproduces the
exact slicing `&val[1..]` and `val[0..3]` together with the panics they
raise when out of bounds. -/

/-- One step of `BufRead::lines` on the remaining characters: the line read
(without the terminating newline) and, when a newline was found, the
remaining characters after it (`none` at end of input). -/
def readLineAux : List Char → List Char × Option (List Char)
  | [] => ([], none)
  | c :: cs =>
    if c == '\n' then ([], some cs)
    else
      let (l, r) := readLineAux cs
      (c :: l, r)

/-- Drop one trailing carriage return, as `Lines::next` does after popping
the newline. -/
def stripCR (l : List Char) : List Char :=
  if l.getLast? == some '\r' then l.dropLast else l

/-- Fuelled worker for `splitCgi` (fuel bounds the number of lines). -/
def splitCgiF : Nat → List Char → List (List Char) × List Char
  | 0, _ => ([], [])
  | n + 1, s =>
    match readLineAux s with
    | (l, none) => if l.isEmpty then ([], []) else ([l], [])
    | (l, some rest) =>
      let line := stripCR l
      if line.isEmpty then ([], rest)
      else
        let (ls, b) := splitCgiF n rest
        (line :: ls, b)

/-- The header block (lines before the first empty line, as yielded by
`BufRead::lines`) and the remaining characters after that empty line, which
the handler streams out as the response body. -/
def splitCgi (s : List Char) : List (List Char) × List Char :=
  splitCgiF (s.length + 1) s

/-- Characters `http::HeaderName` accepts (the HTTP token characters). -/
def isHeaderNameChar (c : Char) : Bool :=
  c.isAlphanum || [33, 35, 36, 37, 38, 39, 42, 43, 45, 46, 94, 95, 96, 124, 126].contains c.toNat

/-- Bytes `http::HeaderValue::from_str` accepts: visible ASCII and tab. -/
def isHeaderValueChar (c : Char) : Bool :=
  (32 ≤ c.toNat && c.toNat < 127) || c.toNat == 9

/-- Rust `u16::from_str`: optional leading `+`, then one or more decimal
digits, value at most `65535`. -/
def parseRustU16 (l : List Char) : Option Nat :=
  let digits := match l with
    | c :: rest => if c == '+' then rest else l
    | [] => l
  if !digits.isEmpty && digits.all Char.isDigit then
    let n := digits.foldl (fun a c => a * 10 + (c.toNat - 48)) 0
    if n ≤ 65535 then some n else none
  else none

/-- A line skipped as diagnostic output (frontend.rs:262). -/
def isGetEnvs (l : List Char) : Bool :=
  listStartsWith ("getEnvs ").toList l

/-- Outcome of the header-line loop: an out-of-bounds slice panic, an
`AppError` (surfaced as a 5xx response), or a status and header list. -/
inductive HdrOutcome where
  | panic
  | error (e : String)
  | ok (status : Nat) (headers : List (List Char × List Char))
deriving DecidableEq, Repr

/-- The header-line loop (frontend.rs:257-278).  For each line: skip
`getEnvs` lines; `split_once(':')` must succeed (`HeaderFormatError`
otherwise); `&val[1..]` panics when the value after the colon is empty; a
`Status` line (case-sensitive name match) parses `val[0..3]` — panicking
when fewer than three characters remain — as the status code
(`InvalidStatusError` when unparseable); any other line must be a legal
header name/value pair (stored with the name lowercased, as
`http::HeaderName` does) and is appended in order. -/
def procLines : List (List Char) → Nat → List (List Char × List Char) → HdrOutcome
  | [], st, hs => .ok st hs
  | line :: rest, st, hs =>
    if isGetEnvs line then procLines rest st hs
    else
      match splitOnce ':' line with
      | none => .error ("HeaderFormatError")
      | some (name, val) =>
        if val.isEmpty then .panic
        else
          let v := val.drop 1
          if name == ("Status").toList then
            if v.length < 3 then .panic
            else
              match parseRustU16 (v.take 3) with
              | none => .error ("InvalidStatusError")
              | some n => procLines rest n hs
          else if !name.isEmpty && name.all isHeaderNameChar && v.all isHeaderValueChar then
            procLines rest st (hs ++ [(name.map Char.toLower, v)])
          else .error ("HeaderFormatError")

/-- The parsed CGI response: status, headers in arrival order (names stored
lowercased), body characters. -/
structure CgiResponse where
  status : Nat
  headers : List (List Char × List Char)
  body : List Char
deriving DecidableEq, Repr

/-- Overall result of the response-building part of the handler. -/
inductive ParseResult where
  | panic
  | error (e : String)
  | ok (r : CgiResponse)
deriving DecidableEq, Repr

/-- Whether `http::StatusCode` accepts the numeric code (100–999); a code
outside this range makes `builder.body(..)` fail, an `AppError`. -/
def statusValid (n : Nat) : Bool :=
  100 ≤ n && n ≤ 999

/-- The CGI output → HTTP response translation (frontend.rs:250-283):
default status 200, header loop over the header block, body = remaining
characters after the first empty line. -/
def parseCgi (s : String) : ParseResult :=
  let (ls, body) := splitCgi s.toList
  match procLines ls 200 [] with
  | .panic => .panic
  | .error e => .error e
  | .ok st hs => if statusValid st then .ok ⟨st, hs, body⟩ else .error ("InvalidStatusCode")

/-! ### Claim-side definitions

These follow the words of the specification (for refinement comparisons),
not the source. -/

/-- Token extraction as the specification words it: split the `Cookie`
header on `;`, trim whitespace, select the segments whose cookie name (the
part before the `=`) is *exactly* `access_token`, the candidate being the
remainder after the one `=`; segments with more or fewer than one `=` are
ignored. -/
def candidatesClaim (h : String) : List String :=
  (((splitChar ';' h.toList).map trimChars).filterMap (fun c =>
    let tok := splitChar '=' c
    if tok.length == 2 && tok.head? == some ACCESS_COOKIE.toList then tok.get? 1
    else none)).map fun l => String.mk l

/-- Token extraction as amended: split on `;`, drop empty segments, trim,
select the segments *starting with* `access_token` that contain exactly one
`=`, the candidate being the remainder after that first `=`. -/
def candidatesAmended (h : String) : List String :=
  ((((splitChar ';' h.toList).filter (fun c => !c.isEmpty)).map trimChars).filterMap (fun c =>
    if listStartsWith ACCESS_COOKIE.toList c && c.count '=' == 1 then
      some (afterFirst '=' c)
    else none)).map fun l => String.mk l

/-- The specification's mount condition: the request *path* falls under the
mount point, i.e. starts with it. -/
def underMount (home : String) (u : Uri) : Bool :=
  listStartsWith home.toList u.path.toList

/-- Name part of a CGI header line, when the line has a colon. -/
def lineName (l : List Char) : Option (List Char) :=
  (splitOnce ':' l).map Prod.fst

/-- Whether the line's name is exactly `Status` (the case-sensitive match
the code performs). -/
def isStatusLine (l : List Char) : Bool :=
  lineName l == some ("Status").toList

/-- Whether the line's name is a case variant of `Status`. -/
def statusNamedCI (l : List Char) : Bool :=
  (lineName l).map (List.map Char.toLower) == some ("status").toList

/-- Whether processing the line hits one of the two out-of-bounds slices
(`&val[1..]` on an empty value, `val[0..3]` on a short `Status` value). -/
def linePanics (l : List Char) : Bool :=
  !isGetEnvs l &&
    match splitOnce ':' l with
    | none => false
    | some (name, val) => val.isEmpty || (name == ("Status").toList && (val.drop 1).length < 3)

/-- Whether processing the line continues the loop (it is skipped, or a
well-formed `Status` line, or a legal header line). -/
def lineCleans (l : List Char) : Bool :=
  isGetEnvs l ||
    match splitOnce ':' l with
    | none => false
    | some (name, val) =>
      !val.isEmpty &&
        (if name == ("Status").toList then
          decide (3 ≤ (val.drop 1).length) && (parseRustU16 ((val.drop 1).take 3)).isSome
        else !name.isEmpty && name.all isHeaderNameChar && (val.drop 1).all isHeaderValueChar)

/-- The literal `Status: 404 Not Found` header line. -/
def s404 : List Char := ("Status: 404 Not Found").toList

/-! ### Helper lemmas -/

theorem splitChar_ne_nil (sep : Char) (l : List Char) : splitChar sep l ≠ [] := by
  cases l with
  | nil => simp [splitChar]
  | cons c cs =>
    simp only [splitChar]
    split
    · simp
    · cases splitChar sep cs <;> simp

theorem splitChar_length (sep : Char) (l : List Char) :
    (splitChar sep l).length = l.count sep + 1 := by
  induction l with
  | nil => simp [splitChar]
  | cons c cs ih =>
    simp only [splitChar, List.count_cons]
    split
    · next h => simp [h, ih]
    · next h =>
      cases hs : splitChar sep cs with
      | nil => exact absurd hs (splitChar_ne_nil sep cs)
      | cons a as =>
        rw [hs] at ih
        simp only [List.length_cons] at ih ⊢
        simp [h, ih]

theorem splitChar_of_count_zero (sep : Char) (l : List Char) (h : l.count sep = 0) :
    splitChar sep l = [l] := by
  induction l with
  | nil => simp [splitChar]
  | cons c cs ih =>
    simp only [List.count_cons] at h
    have hc : (c == sep) = false := by
      by_contra hne
      simp only [Bool.not_eq_false] at hne
      simp [hne] at h
    have hcs : cs.count sep = 0 := by
      simp [hc] at h
      omega
    simp only [splitChar, hc, ih hcs]
    simp

theorem splitChar_get1 (sep : Char) (l : List Char) (h : l.count sep = 1) :
    (splitChar sep l).get? 1 = some (afterFirst sep l) := by
  induction l with
  | nil => simp [List.count_nil] at h
  | cons c cs ih =>
    simp only [List.count_cons] at h
    by_cases hc : c = sep
    · have hcs : cs.count sep = 0 := by simp [hc] at h; omega
      simp only [splitChar, hc, beq_self_eq_true, if_true, splitChar_of_count_zero sep cs hcs]
      simp [afterFirst, hc]
    · have hb : (c == sep) = false := by simp [hc]
      have hcs : cs.count sep = 1 := by simp [hb] at h; omega
      have := ih hcs
      simp only [splitChar, hb, if_false]
      cases hs : splitChar sep cs with
      | nil => exact absurd hs (splitChar_ne_nil sep cs)
      | cons a as =>
        rw [hs] at this
        simpa [afterFirst, hc] using this

theorem listStartsWith_iff (p l : List Char) :
    listStartsWith p l = true ↔ ∃ t, l = p ++ t := by
  induction p generalizing l with
  | nil => simp [listStartsWith]
  | cons a as ih =>
    cases l with
    | nil => simp [listStartsWith]
    | cons c cs =>
      simp only [listStartsWith, Bool.and_eq_true, beq_iff_eq, ih, List.cons_append,
        List.cons.injEq]
      constructor
      · rintro ⟨rfl, t, rfl⟩
        exact ⟨t, rfl, rfl⟩
      · rintro ⟨t, rfl, rfl⟩
        exact ⟨rfl, t, rfl⟩

theorem listContains_iff (p l : List Char) :
    listContains p l = true ↔ ∃ s t, l = s ++ p ++ t := by
  constructor
  · intro h
    simp only [listContains, List.any_eq_true, List.mem_range] at h
    obtain ⟨i, _, hi⟩ := h
    obtain ⟨t, ht⟩ := (listStartsWith_iff _ _).mp hi
    refine ⟨l.take i, t, ?_⟩
    conv_lhs => rw [← List.take_append_drop i l]
    rw [ht, List.append_assoc]
  · rintro ⟨s, t, rfl⟩
    simp only [listContains, List.any_eq_true, List.mem_range]
    refine ⟨s.length, ?_, ?_⟩
    · simp only [List.length_append]
      omega
    · rw [List.append_assoc, List.drop_left]
      exact (listStartsWith_iff _ _).mpr ⟨t, rfl⟩

theorem takeWhile_sep_dropWhile (sep : Char) (l : List Char) (h : sep ∈ l) :
    l = l.takeWhile (· ≠ sep) ++ sep :: (l.dropWhile (· ≠ sep)).drop 1 := by
  induction l with
  | nil => cases h
  | cons c cs ih =>
    by_cases hc : c = sep
    · subst hc
      simp [List.takeWhile_cons, List.dropWhile_cons]
    · have hmem : sep ∈ cs := by
        rcases List.mem_cons.mp h with h' | h'
        · exact absurd h'.symm hc
        · exact h'
      rw [List.takeWhile_cons, List.dropWhile_cons]
      have hd : (decide (c ≠ sep)) = true := by simp [hc]
      rw [hd]
      simp only [if_true, List.cons_append, List.cons.injEq, true_and]
      exact ih hmem

theorem splitOnce_eq_some (sep : Char) (l a b : List Char)
    (h : splitOnce sep l = some (a, b)) : l = a ++ sep :: b := by
  simp only [splitOnce] at h
  split at h
  · next hmem =>
    obtain ⟨rfl, rfl⟩ := Prod.mk.injEq .. ▸ Option.some.injEq .. ▸ h
    exact takeWhile_sep_dropWhile sep l hmem
  · exact absurd h (by simp)

theorem isGetEnvs_of_name_status (l val : List Char)
    (h : splitOnce ':' l = some (("Status").toList, val)) : isGetEnvs l = false := by
  have hl := splitOnce_eq_some ':' l _ _ h
  by_contra hg
  simp only [Bool.not_eq_false, isGetEnvs] at hg
  obtain ⟨t, ht⟩ := (listStartsWith_iff _ _).mp hg
  rw [hl] at ht
  have h1 : ((("Status").toList ++ ':' :: val).head? = some 'S') := rfl
  have h2 : ((("getEnvs ").toList ++ t).head? = some 'g') := rfl
  rw [ht, h2] at h1
  exact absurd h1 (by decide)

theorem procLines_cons_panicEmpty {line name val : List Char} (rest : List (List Char)) (st : Nat)
    (hs : List (List Char × List Char)) (hg : isGetEnvs line = false)
    (hsp : splitOnce ':' line = some (name, val)) (hve : val.isEmpty = true) :
    procLines (line :: rest) st hs = .panic := by
  simp [procLines, hg, hsp, hve]

theorem splitOnce_s404 :
    splitOnce ':' s404 = some ((("Status").toList), ((" 404 Not Found").toList)) := by
  decide

theorem isGetEnvs_s404 : isGetEnvs s404 = false := by
  decide

theorem procLines_status_const (ls : List (List Char)) :
    ∀ (st : Nat) (hs : List (List Char × List Char)) (st' : Nat)
      (hs' : List (List Char × List Char)),
      (∀ l ∈ ls, isStatusLine l = false) →
      procLines ls st hs = .ok st' hs' → st' = st := by
  induction ls with
  | nil =>
    intro st hs st' hs' _ hok
    simp only [procLines, HdrOutcome.ok.injEq] at hok
    exact hok.1.symm
  | cons line rest ih =>
    intro st hs st' hs' hno hok
    have hline : isStatusLine line = false := hno line (List.mem_cons_self _ _)
    have hrest : ∀ l ∈ rest, isStatusLine l = false := fun l hl => hno l (List.mem_cons_of_mem _ hl)
    by_cases hg : isGetEnvs line = true
    · simp only [procLines, hg, if_true] at hok
      exact ih st hs st' hs' hrest hok
    · simp only [Bool.not_eq_true] at hg
      cases hsp : splitOnce ':' line with
      | none => simp [procLines, hg, hsp] at hok
      | some nv =>
        obtain ⟨name, val⟩ := nv
        have hns : (name == ("Status").toList) = false := by
          have hn : lineName line = some name := by simp [lineName, hsp]
          simp only [isStatusLine, hn, Option.some.injEq] at hline
          simpa using hline
        by_cases hve : val.isEmpty = true
        · simp [procLines, hg, hsp, hve] at hok
        · simp only [Bool.not_eq_true] at hve
          simp only [procLines, hg, hsp, hve, hns, Bool.false_eq_true, if_false] at hok
          split at hok
          · exact ih st _ st' hs' hrest hok
          · simp at hok

theorem procLines_cons_skip {line : List Char} (rest : List (List Char)) (st : Nat)
    (hs : List (List Char × List Char)) (hg : isGetEnvs line = true) :
    procLines (line :: rest) st hs = procLines rest st hs := by
  simp [procLines, hg]

theorem procLines_cons_noColon {line : List Char} (rest : List (List Char)) (st : Nat)
    (hs : List (List Char × List Char)) (hg : isGetEnvs line = false)
    (hsp : splitOnce ':' line = none) :
    procLines (line :: rest) st hs = .error ("HeaderFormatError") := by
  simp [procLines, hg, hsp]

theorem procLines_cons_status {line name val : List Char} (rest : List (List Char)) (st : Nat)
    (hs : List (List Char × List Char)) (hg : isGetEnvs line = false)
    (hsp : splitOnce ':' line = some (name, val)) (hve : val.isEmpty = false)
    (hns : (name == ("Status").toList) = true) (hlen : ¬ (val.drop 1).length < 3) :
    procLines (line :: rest) st hs =
      (match parseRustU16 ((val.drop 1).take 3) with
        | none => HdrOutcome.error ("InvalidStatusError")
        | some n => procLines rest n hs) := by
  simp only [procLines, hg, Bool.false_eq_true, if_false, hsp, hve]
  rw [if_pos hns, if_neg hlen]

theorem procLines_cons_header {line name val : List Char} (rest : List (List Char)) (st : Nat)
    (hs : List (List Char × List Char)) (hg : isGetEnvs line = false)
    (hsp : splitOnce ':' line = some (name, val)) (hve : val.isEmpty = false)
    (hns : (name == ("Status").toList) = false)
    (hvl : (!name.isEmpty && name.all isHeaderNameChar &&
      (val.drop 1).all isHeaderValueChar) = true) :
    procLines (line :: rest) st hs =
      procLines rest st (hs ++ [(name.map Char.toLower, val.drop 1)]) := by
  simp only [procLines, hg, Bool.false_eq_true, if_false, hsp, hve, hns]
  rw [if_pos hvl]

theorem procLines_cons_badHeader {line name val : List Char} (rest : List (List Char)) (st : Nat)
    (hs : List (List Char × List Char)) (hg : isGetEnvs line = false)
    (hsp : splitOnce ':' line = some (name, val)) (hve : val.isEmpty = false)
    (hns : (name == ("Status").toList) = false)
    (hvl : (!name.isEmpty && name.all isHeaderNameChar &&
      (val.drop 1).all isHeaderValueChar) = false) :
    procLines (line :: rest) st hs = .error ("HeaderFormatError") := by
  simp only [procLines, hg, Bool.false_eq_true, if_false, hsp, hve, hns]
  rw [if_neg (show ¬ (!name.isEmpty && name.all isHeaderNameChar &&
    (val.drop 1).all isHeaderValueChar) = true by rw [hvl]; exact Bool.false_ne_true)]

theorem procLines_append_clean (pre : List (List Char)) :
    ∀ (rest : List (List Char)) (st : Nat) (hs : List (List Char × List Char)),
      (∀ p ∈ pre, lineCleans p = true) →
      ∃ st' hs', procLines (pre ++ rest) st hs = procLines rest st' hs' := by
  induction pre with
  | nil => exact fun rest st hs _ => ⟨st, hs, rfl⟩
  | cons p pre' ih =>
    intro rest st hs hcl
    have hp : lineCleans p = true := hcl p (List.mem_cons_self _ _)
    have h' : ∀ q ∈ pre', lineCleans q = true := fun q hq => hcl q (List.mem_cons_of_mem _ hq)
    by_cases hg : isGetEnvs p = true
    · rw [List.cons_append, procLines_cons_skip _ st hs hg]
      exact ih rest st hs h'
    · simp only [Bool.not_eq_true] at hg
      simp only [lineCleans, hg, Bool.false_or] at hp
      cases hsp : splitOnce ':' p with
      | none => rw [hsp] at hp; cases hp
      | some nv =>
        obtain ⟨name, val⟩ := nv
        rw [hsp] at hp
        simp only [Bool.and_eq_true] at hp
        obtain ⟨hv, hbr⟩ := hp
        have hve : val.isEmpty = false := by
          cases h : val.isEmpty
          · rfl
          · rw [h] at hv; cases hv
        by_cases hns : (name == ("Status").toList) = true
        · rw [if_pos hns] at hbr
          simp only [Bool.and_eq_true, decide_eq_true_eq, Option.isSome_iff_exists] at hbr
          obtain ⟨h3, n, hn⟩ := hbr
          rw [List.cons_append, procLines_cons_status _ st hs hg hsp hve hns (Nat.not_lt.mpr h3), hn]
          exact ih rest n hs h'
        · simp only [Bool.not_eq_true] at hns
          simp only [hns, Bool.false_eq_true, if_false] at hbr
          rw [List.cons_append, procLines_cons_header _ st hs hg hsp hve hns hbr]
          exact ih rest st _ h'

theorem procLines_error_of_noColon (pre : List (List Char)) :
    ∀ (l : List Char) (post : List (List Char)) (st : Nat)
      (hs : List (List Char × List Char)),
      isGetEnvs l = false → splitOnce ':' l = none →
      (∀ p ∈ pre, linePanics p = false) →
      ∃ e, procLines (pre ++ l :: post) st hs = .error e := by
  induction pre with
  | nil =>
    intro l post st hs hg hsp _
    exact ⟨("HeaderFormatError"), by simp [procLines, hg, hsp]⟩
  | cons p pre' ih =>
    intro l post st hs hg hsp hnp
    have hp : linePanics p = false := hnp p (List.mem_cons_self _ _)
    have h' : ∀ q ∈ pre', linePanics q = false := fun q hq => hnp q (List.mem_cons_of_mem _ hq)
    by_cases hgp : isGetEnvs p = true
    · rw [List.cons_append, procLines_cons_skip _ st hs hgp]
      exact ih l post st hs hg hsp h'
    · simp only [Bool.not_eq_true] at hgp
      cases hspp : splitOnce ':' p with
      | none =>
        exact ⟨("HeaderFormatError"), by rw [List.cons_append, procLines_cons_noColon _ st hs hgp hspp]⟩
      | some nv =>
        obtain ⟨name, val⟩ := nv
        simp only [linePanics, hgp, Bool.not_false, Bool.true_and, hspp] at hp
        rw [Bool.or_eq_false_iff] at hp
        obtain ⟨hve, hst⟩ := hp
        by_cases hns : (name == ("Status").toList) = true
        · rw [hns, Bool.true_and] at hst
          have hlen : ¬ ((val.drop 1).length < 3) := by simpa using hst
          cases hpu : parseRustU16 ((val.drop 1).take 3) with
          | none =>
            refine ⟨("InvalidStatusError"), ?_⟩
            rw [List.cons_append, procLines_cons_status _ st hs hgp hspp hve hns hlen, hpu]
          | some n =>
            rw [List.cons_append, procLines_cons_status _ st hs hgp hspp hve hns hlen, hpu]
            exact ih l post n hs hg hsp h'
        · simp only [Bool.not_eq_true] at hns
          by_cases hvl : (!name.isEmpty && name.all isHeaderNameChar &&
              (val.drop 1).all isHeaderValueChar) = true
          · rw [List.cons_append, procLines_cons_header _ st hs hgp hspp hve hns hvl]
            exact ih l post st _ hg hsp h'
          · simp only [Bool.not_eq_true] at hvl
            exact ⟨("HeaderFormatError"),
              by rw [List.cons_append, procLines_cons_badHeader _ st hs hgp hspp hve hns hvl]⟩

theorem procLines_status404 (ls : List (List Char)) :
    ∀ (st : Nat) (hs : List (List Char × List Char)) (st' : Nat)
      (hs' : List (List Char × List Char)),
      (∀ l ∈ ls, statusNamedCI l = true → l = s404) →
      procLines ls st hs = .ok st' hs' →
      ((∃ l ∈ ls, l = s404) → st' = 404) ∧
      ((∀ l ∈ ls, l ≠ s404) → st' = st) ∧
      (∀ nv ∈ hs', nv ∈ hs ∨ nv.1 ≠ ("status").toList) := by
  induction ls with
  | nil =>
    intro st hs st' hs' _ hok
    simp only [procLines, HdrOutcome.ok.injEq] at hok
    obtain ⟨rfl, rfl⟩ := hok.symm
    refine ⟨?_, fun _ => rfl, fun nv hnv => Or.inl hnv⟩
    rintro ⟨l, hl, -⟩
    cases hl
  | cons line rest ih =>
    intro st hs st' hs' hci hok
    have hciL := hci line (List.mem_cons_self _ _)
    have hciR : ∀ l ∈ rest, statusNamedCI l = true → l = s404 :=
      fun l hl => hci l (List.mem_cons_of_mem _ hl)
    by_cases hg : isGetEnvs line = true
    · rw [procLines_cons_skip _ st hs hg] at hok
      obtain ⟨h1, h2, h3⟩ := ih st hs st' hs' hciR hok
      have hline_ne : line ≠ s404 := by
        intro h
        rw [h, isGetEnvs_s404] at hg
        cases hg
      refine ⟨?_, ?_, h3⟩
      · rintro ⟨l, hl, rfl⟩
        rcases List.mem_cons.mp hl with heq | hl'
        · exact absurd heq.symm hline_ne
        · exact h1 ⟨_, hl', rfl⟩
      · intro hall
        exact h2 (fun l hl => hall l (List.mem_cons_of_mem _ hl))
    · simp only [Bool.not_eq_true] at hg
      cases hsp : splitOnce ':' line with
      | none =>
        rw [procLines_cons_noColon _ st hs hg hsp] at hok
        cases hok
      | some nv =>
        obtain ⟨name, val⟩ := nv
        by_cases hns : (name == ("Status").toList) = true
        · have hnm : name = ("Status").toList := by simpa using hns
          have hlname : lineName line = some (("Status").toList) := by
            simp [lineName, hsp, hnm]
          have hciline : statusNamedCI line = true := by
            simp only [statusNamedCI, hlname, Option.map_some']
            decide
          have hl404 : line = s404 := hciL hciline
          subst hl404
          rw [splitOnce_s404] at hsp
          simp only [Option.some.injEq, Prod.mk.injEq] at hsp
          obtain ⟨hnm2, hval⟩ := hsp
          subst hnm2
          subst hval
          rw [procLines_cons_status rest st hs isGetEnvs_s404 splitOnce_s404 (by decide)
            (by decide) (by decide)] at hok
          rw [show parseRustU16 ((((" 404 Not Found").toList).drop 1).take 3) = some 404
            from by decide] at hok
          obtain ⟨h1, h2, h3⟩ := ih 404 hs st' hs' hciR hok
          refine ⟨fun _ => ?_, ?_, h3⟩
          · by_cases hex : ∃ l ∈ rest, l = s404
            · exact h1 hex
            · push_neg at hex
              exact h2 hex
          · intro hall
            exact absurd rfl (hall s404 (List.mem_cons_self _ _))
        · simp only [Bool.not_eq_true] at hns
          have hlow : name.map Char.toLower ≠ ("status").toList := by
            intro hcon
            have hlname : lineName line = some name := by simp [lineName, hsp]
            have hciline : statusNamedCI line = true := by
              simp [statusNamedCI, hlname, hcon]
            have hl404 := hciL hciline
            rw [hl404, splitOnce_s404] at hsp
            simp only [Option.some.injEq, Prod.mk.injEq] at hsp
            rw [← hsp.1] at hns
            simp at hns
          cases hve : val.isEmpty with
          | true =>
            rw [procLines_cons_panicEmpty _ st hs hg hsp hve] at hok
            cases hok
          | false =>
            have hline_ne : line ≠ s404 := by
              intro h
              rw [h, splitOnce_s404] at hsp
              simp only [Option.some.injEq, Prod.mk.injEq] at hsp
              rw [← hsp.1] at hns
              simp at hns
            by_cases hvl : (!name.isEmpty && name.all isHeaderNameChar &&
                (val.drop 1).all isHeaderValueChar) = true
            · rw [procLines_cons_header _ st hs hg hsp hve hns hvl] at hok
              obtain ⟨h1, h2, h3⟩ := ih st _ st' hs' hciR hok
              refine ⟨?_, ?_, ?_⟩
              · rintro ⟨l, hl, rfl⟩
                rcases List.mem_cons.mp hl with heq | hl'
                · exact absurd heq.symm hline_ne
                · exact h1 ⟨_, hl', rfl⟩
              · intro hall
                exact h2 (fun l hl => hall l (List.mem_cons_of_mem _ hl))
              · intro nv hnv
                rcases h3 nv hnv with hin | hne
                · rcases List.mem_append.mp hin with hin' | hin''
                  · exact Or.inl hin'
                  · right
                    have hnv2 : nv = (name.map Char.toLower, val.drop 1) := by
                      simpa using hin''
                    rw [hnv2]
                    exact hlow
                · exact Or.inr hne
            · simp only [Bool.not_eq_true] at hvl
              rw [procLines_cons_badHeader _ st hs hg hsp hve hns hvl] at hok
              cases hok

theorem filterMap_ext {α β : Type} (f g : α → Option β) (l : List α)
    (hfg : ∀ a, f a = g a) : l.filterMap f = l.filterMap g := by
  rw [funext hfg]

/-! ### Claims -/

/-- C1: for every request to a protected route, when no password is
configured the auth middleware allows the request regardless of the cookie
header; when a password is configured and no candidate token from the
cookie header verifies, the middleware redirects to `/login`; in the
configured case the outcome is always allow-or-redirect (never an HTTP
error status, the middleware having no error outcome). -/
theorem auth_gate_decision (cookie : Option String) (verify : String → Bool) (p : String) :
    authMiddleware (some none) cookie verify = .allow ∧
    ((∀ h t, cookie = some h → t ∈ candidates h → verify t = false) →
      authMiddleware (some (some p)) cookie verify = .redirectLogin) ∧
    (authMiddleware (some (some p)) cookie verify = .allow ∨
      authMiddleware (some (some p)) cookie verify = .redirectLogin) := by
  refine ⟨rfl, ?_, ?_⟩
  · intro hnone
    cases cookie with
    | none => rfl
    | some h =>
      show (if (candidates h).any verify then Decision.allow else Decision.redirectLogin) = _
      rw [if_neg]
      intro hany
      obtain ⟨t, ht, htv⟩ := List.any_eq_true.mp hany
      rw [hnone h t rfl ht] at htv
      cases htv
  · cases cookie with
    | none => exact Or.inr rfl
    | some h =>
      show (if (candidates h).any verify then Decision.allow else Decision.redirectLogin) = _ ∨
        (if (candidates h).any verify then Decision.allow else Decision.redirectLogin) = _
      by_cases hany : (candidates h).any verify = true
      · exact Or.inl (by rw [if_pos hany])
      · exact Or.inr (by rw [if_neg hany])

/-- C1 witness: concrete instances of both conjuncts. -/
theorem auth_gate_decision_witness :
    authMiddleware (some none) (some ("access_token=zzz")) (fun _ => false) = .allow ∧
    authMiddleware (some (some ("pw"))) (some ("access_token=zzz")) (fun _ => false) =
      .redirectLogin :=
  ⟨(auth_gate_decision (some ("access_token=zzz")) (fun _ => false) ("pw")).1,
    (auth_gate_decision (some ("access_token=zzz")) (fun _ => false) ("pw")).2.1
      (fun _ _ _ _ => rfl)⟩

/-- C2: `authentication` always succeeds when no password is configured and
otherwise succeeds iff the supplied password equals the configured one;
on success with a generated token the login response is a 303 redirect to
the application home carrying the `Set-Cookie` line
`access_token=<token>; Max-Age=<EXP>; Path=/; HttpOnly`, and on
authentication failure the response is a redirect to `/login`. -/
theorem login_submission (p pw tok home : String) (e : Nat) :
    authentication (some none) pw = true ∧
    authentication none pw = true ∧
    (authentication (some (some p)) pw = true ↔ pw = p) ∧
    postLogin (some (some p)) (some tok) home e pw =
      (if pw = p then
        .success 303 home (ACCESS_COOKIE ++ "=" ++ tok ++ "; Max-Age=" ++ toString e ++ "; Path=/; HttpOnly")
      else .redirectLogin) ∧
    postLogin (some none) (some tok) home e pw =
      .success 303 home (ACCESS_COOKIE ++ "=" ++ tok ++ "; Max-Age=" ++ toString e ++ "; Path=/; HttpOnly") ∧
    (authentication (some (some p)) pw = false →
      ∀ g, postLogin (some (some p)) g home e pw = .redirectLogin) := by
  refine ⟨rfl, rfl, ?_, ?_, rfl, ?_⟩
  · show (pw == p) = true ↔ pw = p
    exact beq_iff_eq
  · by_cases hp : pw = p
    · rw [if_pos hp]
      show (if authentication (some (some p)) pw = true then _ else _) = _
      rw [if_pos (by show (pw == p) = true; simp [hp])]
    · rw [if_neg hp]
      show (if authentication (some (some p)) pw = true then _ else _) = _
      rw [if_neg (by show ¬ (pw == p) = true; simp [hp])]
  · intro hf g
    show (if authentication (some (some p)) pw = true then _ else _) = _
    rw [if_neg (by rw [hf]; exact Bool.false_ne_true)]

/-- C2 witness: login outcomes at concrete inputs. -/
theorem login_submission_witness :
    postLogin (some (some ("hunter2"))) (some ("tok123")) ("/home") 86400 ("hunter2") =
      .success 303 ("/home") ("access_token=tok123; Max-Age=86400; Path=/; HttpOnly") ∧
    postLogin (some (some ("hunter2"))) (some ("tok123")) ("/home") 86400 ("wrong") =
      .redirectLogin := by
  constructor
  · exact ((login_submission ("hunter2") ("hunter2") ("tok123") ("/home") 86400).2.2.2.1).trans (by decide)
  · exact (login_submission ("hunter2") ("wrong") ("tok123") ("/home") 86400).2.2.2.2.2 (by decide)
      (some ("tok123"))

/-- C3 counterexample: the middleware matches cookie names by prefix, not
exactly — the segment `access_tokenX=v` yields candidate `v` although its
cookie name is not `access_token`, so extraction does not coincide with the
claim's exact-name selection. -/
theorem cookie_extraction_cex :
    candidates ("access_tokenX=v") = ["v"] ∧
    candidatesClaim ("access_tokenX=v") = [] ∧
    candidates ("access_tokenX=v") ≠ candidatesClaim ("access_tokenX=v") := by
  refine ⟨by decide, by decide, by decide⟩

/-- C3 amended: the candidate tokens are obtained by splitting the cookie
header on `;`, dropping empty segments, trimming whitespace, selecting the
segments that *start with* `access_token` and contain exactly one `=`, and
taking the remainder after that first `=`. -/
theorem cookie_extraction_amended (h : String) : candidates h = candidatesAmended h := by
  unfold candidates candidatesAmended
  rw [List.filterMap_map]
  congr 1
  apply filterMap_ext
  intro c
  show (let c' := trimChars c
    if listStartsWith ACCESS_COOKIE.toList c' then
      let tok := splitChar '=' c'
      if tok.length == 2 then tok.get? 1 else none
    else none) = _
  simp only [Function.comp_apply]
  generalize trimChars c = c'
  show (if listStartsWith ACCESS_COOKIE.toList c' then
      (if (splitChar '=' c').length == 2 then (splitChar '=' c').get? 1 else none)
    else none) =
    (if listStartsWith ACCESS_COOKIE.toList c' && (c'.count '=' == 1) then
      some (afterFirst '=' c') else none)
  by_cases hsw : listStartsWith ACCESS_COOKIE.toList c' = true
  · rw [if_pos hsw, hsw, Bool.true_and]
    by_cases hc1 : c'.count '=' = 1
    · have h2 : ((splitChar '=' c').length == 2) = true := by
        rw [Nat.beq_eq_true_eq, splitChar_length]
        omega
      rw [if_pos h2, if_pos (by simp [hc1]), splitChar_get1 '=' c' hc1]
    · have h2 : ((splitChar '=' c').length == 2) = false := by
        rw [Bool.eq_false_iff]
        intro hcon
        rw [Nat.beq_eq_true_eq, splitChar_length] at hcon
        omega
      rw [if_neg (by rw [h2]; exact Bool.false_ne_true),
        if_neg (by simp [hc1])]
  · rw [if_neg hsw,
      if_neg (by simp only [Bool.and_eq_true]; intro hcon; exact hsw hcon.1)]

/-- C4 counterexample: the gateway tests substring containment of the mount
path in the *full URI string*, not that the path falls under the mount
point — a path that merely embeds the mount path in its middle is
forwarded, although it does not fall under the mount point. -/
theorem mount_gate_cex :
    mountGate WEB_UI_HOME ⟨("/x/webman/3rdparty/pan-thunder-com/index.cgi/"), none⟩ = .forward ∧
    underMount WEB_UI_HOME ⟨("/x/webman/3rdparty/pan-thunder-com/index.cgi/"), none⟩ = false := by
  refine ⟨by decide, by decide⟩

/-- C4 amended: a request proceeds to the CGI pipeline iff the rendered URI
string (path plus optional query) contains the mount path as a substring;
otherwise it is redirected to the mount path. -/
theorem mount_gate_amended (home : String) (u : Uri) :
    mountGate home u = .forward ↔ ∃ s t, u.render.toList = s ++ home.toList ++ t := by
  rw [← listContains_iff]
  unfold mountGate
  by_cases hc : listContains home.toList u.render.toList = true
  · simp [hc]
  · simp only [Bool.not_eq_true] at hc
    simp [hc]

/-- C4 amended witness: concrete instance at the repository's mount path. -/
theorem mount_gate_amended_witness :
    mountGate WEB_UI_HOME ⟨("/webman/3rdparty/pan-thunder-com/index.cgi/"), none⟩ = .forward ↔
      ∃ s t, (Uri.render ⟨("/webman/3rdparty/pan-thunder-com/index.cgi/"), none⟩).toList =
        s ++ WEB_UI_HOME.toList ++ t :=
  mount_gate_amended WEB_UI_HOME ⟨("/webman/3rdparty/pan-thunder-com/index.cgi/"), none⟩

/-- C5: the reserved-header guard compares the lowercased header name with
the uppercase literal `PROXY` and therefore never fires — a `Proxy` header
with a non-empty value IS emitted as `HTTP_proxy`, in every casing,
contradicting the requirement that it never be emitted. -/
theorem proxy_header_bug :
    envOfHeader ("Proxy") ("boom") = some (("HTTP_proxy"), ("boom")) ∧
    envOfHeader ("PROXY") ("boom") = some (("HTTP_proxy"), ("boom")) ∧
    envOfHeader ("proxy") ("boom") = some (("HTTP_proxy"), ("boom")) := by
  refine ⟨by decide, by decide, by decide⟩

/-- C6 counterexample: the loop lets a later `Status` line overwrite an
earlier one — an output containing `Status: 404 Not Found` followed by
`Status: 200 OK` parses successfully with status 200, not 404. -/
theorem status_404_cex :
    s404 ∈ (splitCgi (("Status: 404 Not Found\nStatus: 200 OK\n\n").toList)).1 ∧
    parseCgi ("Status: 404 Not Found\nStatus: 200 OK\n\n") = .ok ⟨200, [], []⟩ ∧
    (200 : Nat) ≠ 404 := by
  refine ⟨by decide, by decide, by decide⟩

/-- C6 amended: for every CGI output that parses successfully and whose
status-named header lines (in any casing) are all the literal
`Status: 404 Not Found`, with at least one present, the returned status is
exactly 404 and no `status`-named pair appears among the response
headers. -/
theorem status_404_amended (o : String) (r : CgiResponse)
    (hci : ∀ l ∈ (splitCgi o.toList).1, statusNamedCI l = true → l = s404)
    (hmem : s404 ∈ (splitCgi o.toList).1)
    (hok : parseCgi o = .ok r) :
    r.status = 404 ∧ ∀ v, ((("status").toList, v) ∉ r.headers) := by
  rcases hsc : splitCgi o.toList with ⟨ls, body⟩
  have hci' : ∀ l ∈ ls, statusNamedCI l = true → l = s404 := by
    rw [hsc] at hci; exact hci
  have hmem' : s404 ∈ ls := by rw [hsc] at hmem; exact hmem
  unfold parseCgi at hok
  simp only [hsc] at hok
  cases hpl : procLines ls 200 [] with
  | panic => simp only [hpl] at hok; cases hok
  | error e => simp only [hpl] at hok; cases hok
  | ok st hs =>
    simp only [hpl] at hok
    obtain ⟨h1, h2, h3⟩ := procLines_status404 ls 200 [] st hs hci' hpl
    have hst : st = 404 := h1 ⟨s404, hmem', rfl⟩
    subst hst
    rw [if_pos (by decide : statusValid 404 = true)] at hok
    injection hok with h
    subst h
    refine ⟨rfl, ?_⟩
    intro v hv
    rcases h3 _ hv with hin | hne
    · cases hin
    · exact hne rfl

/-- C6 amended witness: concrete 404 output. -/
theorem status_404_amended_witness :
    (CgiResponse.mk 404 [((("x").toList), (("y").toList))] (("body").toList)).status = 404 ∧
    ∀ v, ((("status").toList, v) ∉
      (CgiResponse.mk 404 [((("x").toList), (("y").toList))] (("body").toList)).headers) :=
  status_404_amended ("Status: 404 Not Found\nX: y\n\nbody") _ (by decide) (by decide) (by decide)

/-- C7 counterexample: a colon-less header line does not always yield an
application error — when an earlier line has an empty value after its
colon, the loop panics on the out-of-bounds slice before reaching the
colon-less line, so the outcome is a panic, not an application error. -/
theorem missing_colon_cex :
    ("nocolon").toList ∈ (splitCgi (("X:\nnocolon\n\n").toList)).1 ∧
    splitOnce ':' (("nocolon").toList) = none ∧
    parseCgi ("X:\nnocolon\n\n") = .panic := by
  refine ⟨by decide, by decide, by decide⟩

/-- C7 amended: if the header block contains a non-diagnostic line with no
colon separator and no earlier header line triggers the out-of-bounds
value slices, the gateway returns an application error (a 5xx `AppError`),
never an HTTP response assembled from the preceding lines. -/
theorem missing_colon_amended (o : String) (pre : List (List Char)) (l : List Char)
    (post : List (List Char))
    (hblk : (splitCgi o.toList).1 = pre ++ l :: post)
    (hg : isGetEnvs l = false)
    (hsp : splitOnce ':' l = none)
    (hnp : ∀ p ∈ pre, linePanics p = false) :
    ∃ e, parseCgi o = .error e := by
  rcases hsc : splitCgi o.toList with ⟨ls, body⟩
  have hblk' : ls = pre ++ l :: post := by rw [hsc] at hblk; exact hblk
  obtain ⟨e, he⟩ := procLines_error_of_noColon pre l post 200 [] hg hsp hnp
  refine ⟨e, ?_⟩
  unfold parseCgi
  simp only [hsc]
  rw [hblk', he]

/-- C7 amended witness: a colon-less second line after a clean first line. -/
theorem missing_colon_amended_witness :
    ∃ e, parseCgi ("A: b\nnocolon\n\n") = .error e :=
  missing_colon_amended ("A: b\nnocolon\n\n") [(("A: b").toList)] (("nocolon").toList) []
    (by decide) (by decide) (by decide) (by decide)

/-- C8: when the header block reaches (all earlier lines processed
cleanly) a `Status` line whose value, after the one-character strip, has at
least three characters whose first three do not parse as a Rust `u16`, the
parser fails with the `InvalidStatusError` application error rather than
producing a response. -/
theorem invalid_status_error (o : String) (pre : List (List Char)) (l : List Char)
    (post : List (List Char)) (val : List Char)
    (hblk : (splitCgi o.toList).1 = pre ++ l :: post)
    (hcl : ∀ p ∈ pre, lineCleans p = true)
    (hsp : splitOnce ':' l = some ((("Status").toList), val))
    (hve : val.isEmpty = false)
    (h3 : 3 ≤ (val.drop 1).length)
    (hpu : parseRustU16 ((val.drop 1).take 3) = none) :
    parseCgi o = .error ("InvalidStatusError") := by
  have hg : isGetEnvs l = false := isGetEnvs_of_name_status l val hsp
  rcases hsc : splitCgi o.toList with ⟨ls, body⟩
  have hblk' : ls = pre ++ l :: post := by rw [hsc] at hblk; exact hblk
  obtain ⟨st', hs', heq⟩ := procLines_append_clean pre (l :: post) 200 [] hcl
  unfold parseCgi
  simp only [hsc]
  rw [hblk', heq,
    procLines_cons_status post st' hs' hg hsp hve (by simp) (Nat.not_lt.mpr h3), hpu]

/-- C8 witness: `Status: abc` yields the invalid-status error. -/
theorem invalid_status_error_witness :
    parseCgi ("Status: abc\n\n") = .error ("InvalidStatusError") :=
  invalid_status_error ("Status: abc\n\n") [] (("Status: abc").toList) [] ((" abc").toList)
    (by decide) (by decide) (by decide) (by decide) (by decide) (by decide)

/-- C9: for every CGI output whose header block contains no line named
exactly `Status`, a successfully returned response has status exactly
200. -/
theorem default_status_200 (o : String) (r : CgiResponse)
    (hns : ∀ l ∈ (splitCgi o.toList).1, isStatusLine l = false)
    (hok : parseCgi o = .ok r) :
    r.status = 200 := by
  rcases hsc : splitCgi o.toList with ⟨ls, body⟩
  have hns' : ∀ l ∈ ls, isStatusLine l = false := by rw [hsc] at hns; exact hns
  unfold parseCgi at hok
  simp only [hsc] at hok
  cases hpl : procLines ls 200 [] with
  | panic => simp only [hpl] at hok; cases hok
  | error e => simp only [hpl] at hok; cases hok
  | ok st hs =>
    simp only [hpl] at hok
    have hst := procLines_status_const ls 200 [] st hs hns' hpl
    subst hst
    rw [if_pos (by decide : statusValid 200 = true)] at hok
    injection hok with h
    rw [← h]

/-- C9 witness: a `Status`-free output parses with status 200. -/
theorem default_status_200_witness :
    (CgiResponse.mk 200 [((("content-type").toList), (("text/plain").toList))]
      (("hello").toList)).status = 200 :=
  default_status_200 ("Content-Type: text/plain\n\nhello") _ (by decide) (by decide)

/-- C10: the value extraction is not total — a header line whose colon is
its last character makes `&val[1..]` slice out of bounds, and a `Status`
line whose stripped value is shorter than three characters makes
`val[0..3]` slice out of bounds; both abort with a panic instead of a
clean error. -/
theorem value_slice_panic :
    parseCgi ("X:\n\n") = .panic ∧
    parseCgi ("Status: 9\n\nbody") = .panic := by
  refine ⟨by decide, by decide⟩

end Thunder
